import Mathlib

-- Shallow embedding of the Credpal FX trading wallet service:
-- the ledger transaction engine (wallet.service.ts), the fallback rate table
-- (fallback-rates.service.ts, fallback-rates.config.ts) and the retry policy
-- (common/utils/retry.util.ts, fx/config/retry.config.ts).
-- Decimal columns (precision 20, scale 8) are modelled as rationals,
-- timestamps as naturals.

namespace CredpalFx

/-- Supported currency codes (wallet-balance.entity.ts, Currency enum). -/
inductive Currency
  | NGN
  | USD
  | EUR
  | GBP
deriving DecidableEq, Repr

/-- One per-(owner, currency) balance record. Fields follow
wallet-balance.entity.ts: balance (total), lockedBalance, availableBalance. -/
structure Balance where
  total : ℚ
  locked : ℚ
  available : ℚ
deriving DecidableEq, Repr

/-- A freshly created balance row (getOrCreateBalance creates all fields zero). -/
def zeroBalance : Balance := ⟨0, 0, 0⟩

/-- The uniform credit mutation of the operations: total and available each
grow by the amount, locked is untouched. -/
def creditBal (b : Balance) (a : ℚ) : Balance :=
  { b with total := b.total + a, available := b.available + a }

/-- The uniform debit mutation: total and available each shrink by the
amount, locked is untouched. -/
def debitBal (b : Balance) (a : ℚ) : Balance :=
  { b with total := b.total - a, available := b.available - a }

/-- Transaction kinds (transaction.entity.ts, TransactionType enum). -/
inductive TransactionType
  | FUNDING
  | CONVERSION
  | TRADE
  | TRANSFER
deriving DecidableEq, Repr

/-- Transaction statuses (transaction.entity.ts, TransactionStatus enum). -/
inductive TransactionStatus
  | PENDING
  | COMPLETED
  | FAILED
  | CANCELLED
deriving DecidableEq, Repr

/-- A ledger entry (transactions table row) with the fields the wallet
operations write; free-text description and external reference are omitted. -/
structure Txn where
  userId : String
  type : TransactionType
  status : TransactionStatus
  amount : ℚ
  fromCurrency : Currency
  toCurrency : Currency
  rate : ℚ
  convertedAmount : ℚ
deriving DecidableEq, Repr

/-- Errors raised by the wallet service (HttpException classes in
wallet.service.ts). internalError stands for an injected storage failure
caught by the rollback handler. -/
inductive WalletErr
  | notVerified
  | walletNotFound
  | invalidAmount
  | sameUser
  | sameCurrency
  | insufficientFunds
  | rateUnavailable
  | internalError
deriving DecidableEq, Repr

/-- Persistent state seen by the wallet service: user email-verification flags
(checkUserVerified), wallet existence per user (one wallet per user), the
balance rows keyed by (owner, currency) — a missing row reads as the zeroed
balance that getOrCreateBalance would lazily create — and the ledger. -/
structure LedgerState where
  verified : String → Bool
  hasWallet : String → Bool
  balances : String → Currency → Balance
  ledger : List Txn

/-- Write one balance row (manager.save on a WalletBalance entity). -/
def setBalance (st : LedgerState) (u : String) (c : Currency) (b : Balance) :
    LedgerState :=
  { st with balances := fun v d => if v = u ∧ d = c then b else st.balances v d }

/-- Append a ledger entry (manager.save on a Transaction entity). -/
def addTxn (st : LedgerState) (txn : Txn) : LedgerState :=
  { st with ledger := txn :: st.ledger }

/-- Injectable storage failures at the save points inside the DB transaction
(the try block between startTransaction and commitTransaction). failAfterDebit
makes the write of the second mutated balance row fail after the first
(the debit) has been applied in memory. -/
structure Faults where
  failAfterDebit : Bool
  failBalancesSave : Bool
  failTxnSave : Bool
deriving DecidableEq, Repr

/-- No injected storage failure: every save succeeds. -/
def noFaults : Faults := ⟨false, false, false⟩

/-- WalletService.fundWallet (wallet.service.ts lines 89-150). The catch
block rolls the DB transaction back, so on any error the returned (persisted)
state is the input state. -/
def fundWallet (st : LedgerState) (userId : String) (amount : ℚ)
    (currency : Currency) (faults : Faults) :
    LedgerState × Except WalletErr Txn :=
  if st.verified userId = false then (st, .error .notVerified)
  else if amount ≤ 0 then (st, .error .invalidAmount)
  else if st.hasWallet userId = false then (st, .error .walletNotFound)
  else
    let bal1 := creditBal (st.balances userId currency) amount
    if faults.failBalancesSave then (st, .error .internalError)
    else if faults.failTxnSave then (st, .error .internalError)
    else
      let txn : Txn :=
        { userId := userId, type := .FUNDING, status := .COMPLETED,
          amount := amount, fromCurrency := currency, toCurrency := currency,
          rate := 1, convertedAmount := amount }
      (addTxn (setBalance st userId currency bal1) txn, .ok txn)

/-- WalletService.transferFunds (wallet.service.ts lines 152-221). Locks are
taken on the sender wallet row first, then the receiver row; both balance
mutations are applied in memory, then saved, then the transfer transaction
row is saved; on any error the DB transaction is rolled back. -/
def transferFunds (st : LedgerState) (fromU toU : String) (amount : ℚ)
    (currency : Currency) (faults : Faults) :
    LedgerState × Except WalletErr Txn :=
  if st.verified fromU = false then (st, .error .notVerified)
  else if fromU = toU then (st, .error .sameUser)
  else if amount ≤ 0 then (st, .error .invalidAmount)
  else if st.hasWallet fromU = false ∨ st.hasWallet toU = false then
    (st, .error .walletNotFound)
  else
    let fromBal := st.balances fromU currency
    let toBal := st.balances toU currency
    if fromBal.available < amount then (st, .error .insufficientFunds)
    else
      let st1 := setBalance st fromU currency (debitBal fromBal amount)
      if faults.failAfterDebit then (st, .error .internalError)
      else
        let st2 := setBalance st1 toU currency (creditBal toBal amount)
        if faults.failBalancesSave then (st, .error .internalError)
        else if faults.failTxnSave then (st, .error .internalError)
        else
          let txn : Txn :=
            { userId := fromU, type := .TRANSFER, status := .COMPLETED,
              amount := amount, fromCurrency := currency, toCurrency := currency,
              rate := 1, convertedAmount := amount }
          (addTxn st2 txn, .ok txn)

/-- WalletService.executeTrade (wallet.service.ts lines 223-296). The rate
table fetched for the base fromCurrency is passed as a function; the code
checks the looked-up rate with a JS falsy test, so a missing entry and a zero
rate both yield the service-unavailable error. The funds check runs after
rate resolution; the debit is applied first, then the credit, then the trade
transaction row; on any error the DB transaction is rolled back. -/
def executeTrade (st : LedgerState) (userId : String) (fromC toC : Currency)
    (amount : ℚ) (rates : Currency → Option ℚ) (faults : Faults) :
    LedgerState × Except WalletErr Txn :=
  if st.verified userId = false then (st, .error .notVerified)
  else if fromC = toC then (st, .error .sameCurrency)
  else if amount ≤ 0 then (st, .error .invalidAmount)
  else if st.hasWallet userId = false then (st, .error .walletNotFound)
  else
    match rates toC with
    | none => (st, .error .rateUnavailable)
    | some rate =>
      if rate = 0 then (st, .error .rateUnavailable)
      else
        let convertedAmount := amount * rate
        let fromBal := st.balances userId fromC
        let toBal := st.balances userId toC
        if fromBal.available < amount then (st, .error .insufficientFunds)
        else
          let st1 := setBalance st userId fromC (debitBal fromBal amount)
          if faults.failAfterDebit then (st, .error .internalError)
          else
            let st2 := setBalance st1 userId toC (creditBal toBal convertedAmount)
            if faults.failBalancesSave then (st, .error .internalError)
            else if faults.failTxnSave then (st, .error .internalError)
            else
              let txn : Txn :=
                { userId := userId, type := .TRADE, status := .COMPLETED,
                  amount := amount, fromCurrency := fromC, toCurrency := toC,
                  rate := rate, convertedAmount := convertedAmount }
              (addTxn st2 txn, .ok txn)

/-- One ledger-engine operation request (fund, transfer or trade). -/
inductive WalletOp
  | fund (userId : String) (amount : ℚ) (currency : Currency)
  | transfer (fromU toU : String) (amount : ℚ) (currency : Currency)
  | trade (userId : String) (fromC toC : Currency) (amount : ℚ)
      (rates : Currency → Option ℚ)

/-- Dispatch one operation against the state. -/
def runOp (st : LedgerState) (op : WalletOp) (faults : Faults) :
    LedgerState × Except WalletErr Txn :=
  match op with
  | .fund u a c => fundWallet st u a c faults
  | .transfer f t a c => transferFunds st f t a c faults
  | .trade u fc tc a rates => executeTrade st u fc tc a rates faults

/-- Run a sequence of operations one after the other: the per-key pessimistic
write locks serialize any two operations that touch a common balance row, so
every concurrent schedule is equivalent to some sequential order of the
operations. -/
def runOps (st : LedgerState) (ops : List WalletOp) :
    LedgerState × List (Except WalletErr Txn) :=
  match ops with
  | [] => (st, [])
  | op :: rest =>
    let step := runOp st op noFaults
    let next := runOps step.1 rest
    (next.1, step.2 :: next.2)

/-- One stored fallback-table entry (fallback-rates.config.ts, FallbackRate). -/
structure FallbackRate where
  rate : ℚ
  lastUpdated : ℕ
deriving DecidableEq, Repr

/-- The process-wide fallback rate matrix: (from, to) to an optional entry
(fallback-rates.config.ts, FallbackRates nested record). -/
def Table : Type := Currency → Currency → Option FallbackRate

/-- Hardcoded baseline rates (fallback-rates.config.ts, BASE_FALLBACK_RATES);
same-currency pairs have no entry. -/
def BASE_FALLBACK_RATES : Currency → Currency → Option ℚ := fun f t =>
  match f, t with
  | .NGN, .USD => some (21 / 10000)
  | .NGN, .EUR => some (19 / 10000)
  | .NGN, .GBP => some (16 / 10000)
  | .USD, .NGN => some (47619 / 100)
  | .USD, .EUR => some (92 / 100)
  | .USD, .GBP => some (79 / 100)
  | .EUR, .NGN => some (2588 / 5)
  | .EUR, .USD => some (109 / 100)
  | .EUR, .GBP => some (86 / 100)
  | .GBP, .NGN => some (60241 / 100)
  | .GBP, .USD => some (127 / 100)
  | .GBP, .EUR => some (116 / 100)
  | _, _ => none

/-- initializeFallbackRates (fallback-rates.config.ts): every baseline pair
gets an entry stamped with the current time. -/
def initializeFallbackRates (now : ℕ) : Table := fun f t =>
  (BASE_FALLBACK_RATES f t).map (fun r => ⟨r, now⟩)

/-- FallbackRatesService.isValidRate: finite, positive, below the hardcoded
upper bound. NaN and infinity do not exist in ℚ, so those source checks are
vacuous here. -/
def isValidRate (r : ℚ) : Bool := decide (0 < r) && decide (r < 1000000)

/-- Store one directional entry in the table. -/
def setEntry (tbl : Table) (f t : Currency) (e : FallbackRate) : Table :=
  fun a b => if a = f ∧ b = t then some e else tbl a b

/-- FallbackRatesService.updateRate (fallback-rates.service.ts lines 49-86):
reject an invalid rate (leaving the table untouched), otherwise store the new
rate for (from, to) and its exact inverse for (to, from), both stamped now.
The significant-change monitoring only logs and is omitted. -/
def updateRate (tbl : Table) (f t : Currency) (newRate : ℚ) (now : ℕ) : Table :=
  if isValidRate newRate = false then tbl
  else setEntry (setEntry tbl f t ⟨newRate, now⟩) t f ⟨1 / newRate, now⟩

/-- FallbackRatesService.getRate (fallback-rates.service.ts lines 37-44):
entry present (a stored object is always JS-truthy) gives its rate; otherwise
the baseline constant; otherwise 1. Total — no error path. -/
def getRate (tbl : Table) (f t : Currency) : ℚ :=
  match tbl f t with
  | some e => e.rate
  | none =>
    match BASE_FALLBACK_RATES f t with
    | some r => r
    | none => 1

/-- One rate returned by a source adapter (rate-source.interface.ts,
RateSourceResponse; timestamp and source name are not used by the refresh). -/
structure RatePointIn where
  fromCurrency : Currency
  toCurrency : Currency
  rate : ℚ
deriving DecidableEq, Repr

/-- A rate source adapter as the refresh cycle sees it: the isAvailable probe
result and the getRates outcome (a thrown error or a list of rates). -/
structure Adapter where
  available : Bool
  ratesResult : Except Unit (List RatePointIn)

/-- The per-rate validate-and-write loop inside fetchLatestRates
(lines 144-155): invalid rates are logged and skipped, valid ones go through
updateRate. -/
def applyRates (tbl : Table) (rates : List RatePointIn) (now : ℕ) : Table :=
  rates.foldl
    (fun t rp =>
      if isValidRate rp.rate then updateRate t rp.fromCurrency rp.toCurrency rp.rate now
      else t)
    tbl

/-- FallbackRatesService.fetchLatestRates (lines 126-171): walk the sources in
priority order, skip unavailable ones, skip ones whose getRates throws; the
first source whose getRates returns (any list, even empty) has its valid rates
written and the loop breaks with success. The returned flag is the success
flag; false means the final throw fired, and the table component is then the
untouched input table. -/
def fetchLatestRates (sources : List Adapter) (tbl : Table) (now : ℕ) :
    Table × Bool :=
  match sources with
  | [] => (tbl, false)
  | s :: rest =>
    if s.available = false then fetchLatestRates rest tbl now
    else
      match s.ratesResult with
      | .error _ => fetchLatestRates rest tbl now
      | .ok rates => (applyRates tbl rates now, true)

/-- Retry policy parameters (common/utils/retry.util.ts, RetryConfig).
Delays are in milliseconds. -/
structure RetryConfig where
  maxAttempts : ℕ
  initialDelay : ℕ
  maxDelay : ℕ
  backoffFactor : ℕ
deriving DecidableEq, Repr

/-- RETRY_CONFIG (fx/config/retry.config.ts): 3 attempts, 1 s initial delay,
5 s cap, factor 2. -/
def RETRY_CONFIG : RetryConfig :=
  { maxAttempts := 3, initialDelay := 1000, maxDelay := 5000, backoffFactor := 2 }

/-- The retry loop body (common/utils/retry.util.ts lines 15-26) after the
first attempt is numbered: run attempt; on failure, if retries remain, sleep
the current delay, scale it by the factor capped at maxDelay, and recurse.
Returns the final outcome together with the list of waits performed. -/
def retryRun (E A : Type) (fn : ℕ → Except E A) (attempt remaining : ℕ)
    (delay maxD factor : ℕ) : Except E A × List ℕ :=
  match fn attempt with
  | .ok a => (.ok a, [])
  | .error e =>
    match remaining with
    | 0 => (.error e, [])
    | r + 1 =>
      let next := retryRun E A fn (attempt + 1) r (min (delay * factor) maxD) maxD factor
      (next.1, delay :: next.2)

/-- The retry combinator (common/utils/retry.util.ts, retry): attempts are
numbered 1..maxAttempts, so maxAttempts - 1 retries remain after the first. -/
def retry (E A : Type) (fn : ℕ → Except E A) (cfg : RetryConfig) :
    Except E A × List ℕ :=
  retryRun E A fn 1 (cfg.maxAttempts - 1) cfg.initialDelay cfg.maxDelay cfg.backoffFactor

/-- Order in which transferFunds acquires its pessimistic wallet-row locks
(wallet.service.ts lines 173-174): the sender row is locked first, then the
receiver row — the caller-supplied argument order. -/
def transferLockAcquisitionOrder (fromU toU : String) : List String :=
  [fromU, toU]

/-- Order in which executeTrade acquires (and lazily creates) the owner's two
locked balance rows (wallet.service.ts lines 255-256): the from-currency row
first, then the to-currency row — the caller-supplied argument order. -/
def tradeBalanceAcquisitionOrder (fromC toC : Currency) : List Currency :=
  [fromC, toC]

/-- The ISO code of a currency, for the alphabetical order the spec claims
trades use. -/
def currencyCode : Currency → String
  | .NGN => "NGN"
  | .USD => "USD"
  | .EUR => "EUR"
  | .GBP => "GBP"

/-- Per-balance invariant: total splits into locked plus available, and
available is nonnegative. -/
def balInv (b : Balance) : Prop := b.total = b.locked + b.available ∧ 0 ≤ b.available

/-- The invariant over every balance row of the state. -/
def stateInv (st : LedgerState) : Prop := ∀ u c, balInv (st.balances u c)

/-- Environment assumption on trades: every rate the resolver hands back for
the target currency is nonnegative (rates are positive reals in the data
model); vacuous for fund and transfer. -/
def opRatesNonneg : WalletOp → Prop
  | .trade _ _ tc _ rates => ∀ r, rates tc = some r → 0 ≤ r
  | _ => True

theorem setBalance_balances (st : LedgerState) (u : String) (c : Currency)
    (b : Balance) (v : String) (d : Currency) :
    (setBalance st u c b).balances v d =
      if v = u ∧ d = c then b else st.balances v d := rfl

theorem addTxn_balances (st : LedgerState) (txn : Txn) :
    (addTxn st txn).balances = st.balances := rfl

theorem addTxn_ledger (st : LedgerState) (txn : Txn) :
    (addTxn st txn).ledger = txn :: st.ledger := rfl

theorem setBalance_ledger (st : LedgerState) (u : String) (c : Currency)
    (b : Balance) : (setBalance st u c b).ledger = st.ledger := rfl

theorem setBalance_verified (st : LedgerState) (u : String) (c : Currency)
    (b : Balance) : (setBalance st u c b).verified = st.verified := rfl

theorem setBalance_hasWallet (st : LedgerState) (u : String) (c : Currency)
    (b : Balance) : (setBalance st u c b).hasWallet = st.hasWallet := rfl

theorem addTxn_verified (st : LedgerState) (txn : Txn) :
    (addTxn st txn).verified = st.verified := rfl

theorem addTxn_hasWallet (st : LedgerState) (txn : Txn) :
    (addTxn st txn).hasWallet = st.hasWallet := rfl

/-- Inversion of a successful fundWallet call: the guards passed and the
result state is the committed mutation. -/
theorem fundWallet_ok_shape (st : LedgerState) (u : String) (a : ℚ)
    (c : Currency) (fl : Faults) (st2 : LedgerState) (txn : Txn)
    (h : fundWallet st u a c fl = (st2, .ok txn)) :
    st.verified u = true ∧ 0 < a ∧ st.hasWallet u = true ∧
    txn = ⟨u, .FUNDING, .COMPLETED, a, c, c, 1, a⟩ ∧
    st2 = addTxn (setBalance st u c (creditBal (st.balances u c) a)) txn := by
  simp only [fundWallet] at h
  split_ifs at h with h1 h2 h3 h4 h5
  any_goals simp at h
  obtain ⟨hst, htxn⟩ := h
  subst hst
  subst htxn
  exact ⟨by simpa using h1, lt_of_not_ge h2, by simpa using h3, rfl, rfl⟩

/-- Inversion of a successful transferFunds call. -/
theorem transferFunds_ok_shape (st : LedgerState) (f t : String) (a : ℚ)
    (c : Currency) (fl : Faults) (st2 : LedgerState) (txn : Txn)
    (h : transferFunds st f t a c fl = (st2, .ok txn)) :
    st.verified f = true ∧ f ≠ t ∧ 0 < a ∧
    st.hasWallet f = true ∧ st.hasWallet t = true ∧
    a ≤ (st.balances f c).available ∧
    txn = ⟨f, .TRANSFER, .COMPLETED, a, c, c, 1, a⟩ ∧
    st2 = addTxn (setBalance (setBalance st f c (debitBal (st.balances f c) a))
      t c (creditBal (st.balances t c) a)) txn := by
  simp only [transferFunds] at h
  split_ifs at h with h1 h2 h3 h4 h5 h6 h7 h8
  any_goals simp at h
  obtain ⟨hst, htxn⟩ := h
  subst hst
  subst htxn
  push_neg at h4
  exact ⟨by simpa using h1, h2, lt_of_not_ge h3, by simpa using h4.1,
    by simpa using h4.2, le_of_not_gt h5, rfl, rfl⟩

/-- Inversion of a successful executeTrade call. -/
theorem executeTrade_ok_shape (st : LedgerState) (u : String)
    (fc tc : Currency) (a : ℚ) (rates : Currency → Option ℚ) (fl : Faults)
    (st2 : LedgerState) (txn : Txn)
    (h : executeTrade st u fc tc a rates fl = (st2, .ok txn)) :
    st.verified u = true ∧ fc ≠ tc ∧ 0 < a ∧ st.hasWallet u = true ∧
    ∃ r, rates tc = some r ∧ r ≠ 0 ∧
      a ≤ (st.balances u fc).available ∧
      txn = ⟨u, .TRADE, .COMPLETED, a, fc, tc, r, a * r⟩ ∧
      st2 = addTxn (setBalance (setBalance st u fc (debitBal (st.balances u fc) a))
        u tc (creditBal (st.balances u tc) (a * r))) txn := by
  simp only [executeTrade] at h
  cases hr : rates tc with
  | none =>
    rw [hr] at h
    dsimp only at h
    split_ifs at h <;> simp at h
  | some r =>
    rw [hr] at h
    dsimp only at h
    split_ifs at h with h1 h2 h3 h4 h5 h6 h7 h8 h9
    any_goals simp at h
    obtain ⟨hst, htxn⟩ := h
    subst hst
    subst htxn
    exact ⟨by simpa using h1, h2, lt_of_not_ge h3, by simpa using h4, r, rfl,
      h5, le_of_not_gt h6, rfl, rfl⟩

theorem creditBal_total (b : Balance) (x : ℚ) : (creditBal b x).total = b.total + x := rfl

theorem creditBal_available (b : Balance) (x : ℚ) :
    (creditBal b x).available = b.available + x := rfl

theorem creditBal_locked (b : Balance) (x : ℚ) : (creditBal b x).locked = b.locked := rfl

theorem debitBal_total (b : Balance) (x : ℚ) : (debitBal b x).total = b.total - x := rfl

theorem debitBal_available (b : Balance) (x : ℚ) :
    (debitBal b x).available = b.available - x := rfl

theorem debitBal_locked (b : Balance) (x : ℚ) : (debitBal b x).locked = b.locked := rfl

theorem balInv_credit (b : Balance) (x : ℚ) (hb : balInv b) (hx : 0 ≤ x) :
    balInv (creditBal b x) := by
  obtain ⟨h1, h2⟩ := hb
  refine ⟨?_, ?_⟩
  · rw [creditBal_total, creditBal_locked, creditBal_available]
    linarith
  · rw [creditBal_available]
    linarith

theorem balInv_debit (b : Balance) (x : ℚ) (hb : balInv b) (hx : x ≤ b.available) :
    balInv (debitBal b x) := by
  obtain ⟨h1, h2⟩ := hb
  refine ⟨?_, ?_⟩
  · rw [debitBal_total, debitBal_locked, debitBal_available]
    linarith
  · rw [debitBal_available]
    linarith

/-- C1: for every balance record and every completed fund, transfer, or trade
operation, the invariant total = locked + available with available >= 0 holds
after the operation whenever it held before; each operation adds or subtracts
the same amount to the total field and the available field and never touches
the locked field. (Trades assume the resolver returned a nonnegative rate.) -/
theorem completed_ops_preserve_balance_invariant
    (st st2 : LedgerState) (op : WalletOp) (fl : Faults) (txn : Txn)
    (hrates : opRatesNonneg op)
    (hrun : runOp st op fl = (st2, .ok txn))
    (hinv : stateInv st) :
    stateInv st2 ∧
    (∀ u c, (st2.balances u c).locked = (st.balances u c).locked) ∧
    (∀ u c, (st2.balances u c).total - (st.balances u c).total =
      (st2.balances u c).available - (st.balances u c).available) := by
  cases op with
  | fund u a c =>
    obtain ⟨hv, ha, hw, htxn, hst⟩ := fundWallet_ok_shape st u a c fl st2 txn hrun
    subst hst
    refine ⟨?_, ?_, ?_⟩
    · intro v d
      rw [addTxn_balances, setBalance_balances]
      split
      · exact balInv_credit _ _ (hinv u c) ha.le
      · exact hinv v d
    · intro v d
      rw [addTxn_balances, setBalance_balances]
      split
      · next hc => rw [creditBal_locked, hc.1, hc.2]
      · rfl
    · intro v d
      rw [addTxn_balances, setBalance_balances]
      split
      · next hc =>
        rw [creditBal_total, creditBal_available, hc.1, hc.2]
        ring
      · simp
  | transfer f t a c =>
    obtain ⟨hv, hne, ha, hwf, hwt, hav, htxn, hst⟩ :=
      transferFunds_ok_shape st f t a c fl st2 txn hrun
    subst hst
    refine ⟨?_, ?_, ?_⟩
    · intro v d
      rw [addTxn_balances, setBalance_balances, setBalance_balances]
      split
      · exact balInv_credit _ _ (hinv t c) ha.le
      · split
        · exact balInv_debit _ _ (hinv f c) hav
        · exact hinv v d
    · intro v d
      rw [addTxn_balances, setBalance_balances, setBalance_balances]
      split
      · next hc => rw [creditBal_locked, hc.1, hc.2]
      · split
        · next hc => rw [debitBal_locked, hc.1, hc.2]
        · rfl
    · intro v d
      rw [addTxn_balances, setBalance_balances, setBalance_balances]
      split
      · next hc =>
        rw [creditBal_total, creditBal_available, hc.1, hc.2]
        ring
      · split
        · next hc =>
          rw [debitBal_total, debitBal_available, hc.1, hc.2]
          ring
        · simp
  | trade u fc tc a rates =>
    obtain ⟨hv, hne, ha, hw, r, hr, hr0, hav, htxn, hst⟩ :=
      executeTrade_ok_shape st u fc tc a rates fl st2 txn hrun
    subst hst
    have hrn : 0 ≤ a * r := mul_nonneg ha.le (hrates r hr)
    refine ⟨?_, ?_, ?_⟩
    · intro v d
      rw [addTxn_balances, setBalance_balances, setBalance_balances]
      split
      · exact balInv_credit _ _ (hinv u tc) hrn
      · split
        · exact balInv_debit _ _ (hinv u fc) hav
        · exact hinv v d
    · intro v d
      rw [addTxn_balances, setBalance_balances, setBalance_balances]
      split
      · next hc => rw [creditBal_locked, hc.1, hc.2]
      · split
        · next hc => rw [debitBal_locked, hc.1, hc.2]
        · rfl
    · intro v d
      rw [addTxn_balances, setBalance_balances, setBalance_balances]
      split
      · next hc =>
        rw [creditBal_total, creditBal_available, hc.1, hc.2]
        ring
      · split
        · next hc =>
          rw [debitBal_total, debitBal_available, hc.1, hc.2]
          ring
        · simp

/-- Concrete state used by witnesses: every user verified with a wallet,
owner u1 holds USD total 1000 / available 1000, every other row zero. -/
def stW : LedgerState :=
  { verified := fun _ => true
    hasWallet := fun _ => true
    balances := fun u c => if u = "u1" ∧ c = .USD then ⟨1000, 0, 1000⟩ else zeroBalance
    ledger := [] }

theorem stW_inv : stateInv stW := by
  intro u c
  unfold stW balInv
  dsimp only
  split
  · exact ⟨by norm_num, by norm_num⟩
  · exact ⟨by norm_num [zeroBalance], by norm_num [zeroBalance]⟩

/-- Concrete funding operation for the C1 witness. -/
def opW1 : WalletOp := .fund "u1" 5 .USD

/-- Ledger entry produced by opW1 against stW. -/
def txnW1 : Txn := ⟨"u1", .FUNDING, .COMPLETED, 5, .USD, .USD, 1, 5⟩

/-- Witness for C1: the invariant statement holds at a concrete completed
funding operation. -/
theorem completed_ops_preserve_balance_invariant_witness :
    stateInv (runOp stW opW1 noFaults).1 ∧
    (∀ u c, ((runOp stW opW1 noFaults).1.balances u c).locked =
      (stW.balances u c).locked) ∧
    (∀ u c, ((runOp stW opW1 noFaults).1.balances u c).total -
        (stW.balances u c).total =
      ((runOp stW opW1 noFaults).1.balances u c).available -
        (stW.balances u c).available) :=
  completed_ops_preserve_balance_invariant stW (runOp stW opW1 noFaults).1 opW1
    noFaults txnW1 trivial rfl stW_inv

/-- C2: for a trade with distinct currencies and positive amount, issued by a
verified owner with a wallet: a failed rate lookup yields the
service-unavailable RateUnavailable error; an available from-balance below the
amount yields InsufficientFunds; otherwise with resolved rate r the
from-balance total and available each decrease by the amount, the to-balance
total and available each increase by amount * r, and one COMPLETED TRADE
ledger entry records rate r and convertedAmount amount * r. -/
theorem executeTrade_spec
    (st : LedgerState) (u : String) (fc tc : Currency) (a : ℚ)
    (rates : Currency → Option ℚ)
    (hv : st.verified u = true) (hw : st.hasWallet u = true)
    (hne : fc ≠ tc) (ha : 0 < a) :
    (rates tc = none →
      executeTrade st u fc tc a rates noFaults = (st, .error .rateUnavailable)) ∧
    (∀ r, rates tc = some r → r ≠ 0 → (st.balances u fc).available < a →
      executeTrade st u fc tc a rates noFaults = (st, .error .insufficientFunds)) ∧
    (∀ r, rates tc = some r → r ≠ 0 → a ≤ (st.balances u fc).available →
      ∃ st2 txn, executeTrade st u fc tc a rates noFaults = (st2, .ok txn) ∧
        st2.balances u fc = debitBal (st.balances u fc) a ∧
        st2.balances u tc = creditBal (st.balances u tc) (a * r) ∧
        st2.ledger = txn :: st.ledger ∧
        txn = ⟨u, .TRADE, .COMPLETED, a, fc, tc, r, a * r⟩) := by
  have ha' : ¬ a ≤ 0 := not_le.mpr ha
  refine ⟨?_, ?_, ?_⟩
  · intro hr
    simp [executeTrade, hr, hv, hw, hne, ha']
  · intro r hr hr0 hlt
    simp [executeTrade, hr, hv, hw, hne, ha', hr0, hlt]
  · intro r hr hr0 hge
    have hnl : ¬ (st.balances u fc).available < a := not_lt.mpr hge
    have heq : executeTrade st u fc tc a rates noFaults =
        (addTxn (setBalance (setBalance st u fc (debitBal (st.balances u fc) a))
          u tc (creditBal (st.balances u tc) (a * r)))
          ⟨u, .TRADE, .COMPLETED, a, fc, tc, r, a * r⟩,
         .ok ⟨u, .TRADE, .COMPLETED, a, fc, tc, r, a * r⟩) := by
      simp [executeTrade, hr, hv, hw, hne, ha', hr0, hnl, noFaults]
    refine ⟨_, _, heq, ?_, ?_, rfl, rfl⟩
    · rw [addTxn_balances, setBalance_balances,
        if_neg (fun hc => hne hc.2), setBalance_balances, if_pos ⟨rfl, rfl⟩]
    · rw [addTxn_balances, setBalance_balances, if_pos ⟨rfl, rfl⟩]

/-- Rate table used by the trade witnesses: USD to EUR at 0.85, nothing else. -/
def ratesW : Currency → Option ℚ := fun c => if c = .EUR then some (17 / 20) else none

/-- Witness for C2: the spec scenario — u1 holds USD available 1000, rate
USD to EUR is 0.85, trading 100 leaves USD available 900 and credits EUR 85,
with a COMPLETED TRADE entry recording rate 0.85 and convertedAmount 85. -/
theorem executeTrade_spec_witness :
    (ratesW .EUR = none →
      executeTrade stW "u1" .USD .EUR 100 ratesW noFaults =
        (stW, .error .rateUnavailable)) ∧
    (∀ r, ratesW .EUR = some r → r ≠ 0 → (stW.balances "u1" .USD).available < 100 →
      executeTrade stW "u1" .USD .EUR 100 ratesW noFaults =
        (stW, .error .insufficientFunds)) ∧
    (∀ r, ratesW .EUR = some r → r ≠ 0 → 100 ≤ (stW.balances "u1" .USD).available →
      ∃ st2 txn, executeTrade stW "u1" .USD .EUR 100 ratesW noFaults = (st2, .ok txn) ∧
        st2.balances "u1" .USD = debitBal (stW.balances "u1" .USD) 100 ∧
        st2.balances "u1" .EUR = creditBal (stW.balances "u1" .EUR) (100 * r) ∧
        st2.ledger = txn :: stW.ledger ∧
        txn = ⟨"u1", .TRADE, .COMPLETED, 100, .USD, .EUR, r, 100 * r⟩) :=
  executeTrade_spec stW "u1" .USD .EUR 100 ratesW rfl rfl (by decide) (by norm_num)

/-- C3: for a transfer issued by a verified sender: transferring to oneself
fails with SameOwner; with distinct owners, positive amount and sender
available below the amount it fails with InsufficientFunds; otherwise the
sender's total and available each decrease by exactly the amount, the
receiver's each increase by exactly the amount (rate 1), the sum of total
over any set of owners containing both is unchanged, and one COMPLETED
TRANSFER ledger entry attributed to the sender is produced. -/
theorem transferFunds_spec
    (st : LedgerState) (f t : String) (a : ℚ) (c : Currency)
    (hv : st.verified f = true) :
    (f = t → transferFunds st f t a c noFaults = (st, .error .sameUser)) ∧
    (f ≠ t → 0 < a → st.hasWallet f = true → st.hasWallet t = true →
      (st.balances f c).available < a →
      transferFunds st f t a c noFaults = (st, .error .insufficientFunds)) ∧
    (f ≠ t → 0 < a → st.hasWallet f = true → st.hasWallet t = true →
      a ≤ (st.balances f c).available →
      ∃ st2 txn, transferFunds st f t a c noFaults = (st2, .ok txn) ∧
        st2.balances f c = debitBal (st.balances f c) a ∧
        st2.balances t c = creditBal (st.balances t c) a ∧
        st2.ledger = txn :: st.ledger ∧
        txn = ⟨f, .TRANSFER, .COMPLETED, a, c, c, 1, a⟩ ∧
        ∀ S : Finset String, f ∈ S → t ∈ S →
          (S.sum fun o => (st2.balances o c).total) =
            S.sum fun o => (st.balances o c).total) := by
  refine ⟨?_, ?_, ?_⟩
  · intro heq
    subst heq
    simp [transferFunds, hv]
  · intro hne ha hwf hwt hlt
    simp [transferFunds, hv, hne, hwf, hwt, not_le.mpr ha, hlt]
  · intro hne ha hwf hwt hge
    have hnl : ¬ (st.balances f c).available < a := not_lt.mpr hge
    have heq : transferFunds st f t a c noFaults =
        (addTxn (setBalance (setBalance st f c (debitBal (st.balances f c) a))
          t c (creditBal (st.balances t c) a))
          ⟨f, .TRANSFER, .COMPLETED, a, c, c, 1, a⟩,
         .ok ⟨f, .TRANSFER, .COMPLETED, a, c, c, 1, a⟩) := by
      simp [transferFunds, hv, hne, hwf, hwt, not_le.mpr ha, hnl, noFaults]
    refine ⟨_, _, heq, ?_, ?_, rfl, rfl, ?_⟩
    · rw [addTxn_balances, setBalance_balances,
        if_neg (fun hc => hne hc.1), setBalance_balances, if_pos ⟨rfl, rfl⟩]
    · rw [addTxn_balances, setBalance_balances, if_pos ⟨rfl, rfl⟩]
    · intro S hfS htS
      have hpt : ∀ o,
          ((addTxn (setBalance (setBalance st f c (debitBal (st.balances f c) a))
            t c (creditBal (st.balances t c) a))
            ⟨f, .TRANSFER, .COMPLETED, a, c, c, 1, a⟩).balances o c).total =
          (st.balances o c).total +
            ((if o = t then a else 0) + (if o = f then -a else 0)) := by
        intro o
        rw [addTxn_balances, setBalance_balances, setBalance_balances]
        by_cases h1 : o = t
        · subst h1
          rw [if_pos ⟨rfl, rfl⟩, if_pos rfl, if_neg fun h2 => hne (h2.symm),
            creditBal_total]
          ring
        · rw [if_neg fun hc => h1 hc.1, if_neg h1]
          by_cases h2 : o = f
          · subst h2
            rw [if_pos ⟨rfl, rfl⟩, if_pos rfl, debitBal_total]
            ring
          · rw [if_neg fun hc => h2 hc.1, if_neg h2]
            ring
      rw [Finset.sum_congr rfl fun o _ => hpt o, Finset.sum_add_distrib,
        Finset.sum_add_distrib, Finset.sum_ite_eq' S t fun _ => a,
        Finset.sum_ite_eq' S f fun _ => -a, if_pos htS, if_pos hfS]
      ring

/-- Witness for C3: transferring USD 100 from u1 (available 1000) to u2. -/
theorem transferFunds_spec_witness :
    ("u1" = "u2" → transferFunds stW "u1" "u2" 100 .USD noFaults =
      (stW, .error .sameUser)) ∧
    ("u1" ≠ "u2" → (0:ℚ) < 100 → stW.hasWallet "u1" = true →
      stW.hasWallet "u2" = true → (stW.balances "u1" .USD).available < 100 →
      transferFunds stW "u1" "u2" 100 .USD noFaults =
        (stW, .error .insufficientFunds)) ∧
    ("u1" ≠ "u2" → (0:ℚ) < 100 → stW.hasWallet "u1" = true →
      stW.hasWallet "u2" = true → 100 ≤ (stW.balances "u1" .USD).available →
      ∃ st2 txn, transferFunds stW "u1" "u2" 100 .USD noFaults = (st2, .ok txn) ∧
        st2.balances "u1" .USD = debitBal (stW.balances "u1" .USD) 100 ∧
        st2.balances "u2" .USD = creditBal (stW.balances "u2" .USD) 100 ∧
        st2.ledger = txn :: stW.ledger ∧
        txn = ⟨"u1", .TRANSFER, .COMPLETED, 100, .USD, .USD, 1, 100⟩ ∧
        ∀ S : Finset String, "u1" ∈ S → "u2" ∈ S →
          (S.sum fun o => (st2.balances o .USD).total) =
            S.sum fun o => (stW.balances o .USD).total) :=
  transferFunds_spec stW "u1" "u2" 100 .USD rfl

set_option maxHeartbeats 1000000 in
/-- C4: any error raised at any stage of a fund, transfer or trade — guard
failures after the locked rows are read, an injected save failure of either
balance row (including the credit row of a trade failing after the debit has
been applied in memory), or a failure of the ledger-entry save — leaves the
persisted state exactly as it was before the operation started. -/
theorem ops_roll_back_on_error
    (st : LedgerState) (op : WalletOp) (fl : Faults) (e : WalletErr)
    (h : (runOp st op fl).2 = .error e) :
    (runOp st op fl).1 = st := by
  cases op with
  | fund u a c =>
    simp only [runOp, fundWallet] at h ⊢
    split_ifs at h ⊢ <;> first | rfl | simp at h
  | transfer f t a c =>
    simp only [runOp, transferFunds] at h ⊢
    split_ifs at h ⊢ <;> first | rfl | simp at h
  | trade u fc tc a rates =>
    simp only [runOp, executeTrade] at h ⊢
    cases hr : rates tc with
    | none =>
      split_ifs <;> rfl
    | some r =>
      rw [hr] at h
      dsimp only at h ⊢
      split_ifs at h ⊢ <;> first | rfl | simp at h

/-- Fault injection for the C4 witness: the credit-row save of a trade fails
after the debit has been applied in memory. -/
def faultW : Faults := ⟨true, false, false⟩

/-- Trade used by the C4 witness: u1 has ample USD, the rate resolves, the
debit is applied, then the injected failure fires. -/
def opW4 : WalletOp := .trade "u1" .USD .EUR 100 ratesW

/-- Witness for C4: the forced mid-trade failure leaves the persisted state
untouched — neither the debit nor the credit survives. -/
theorem ops_roll_back_on_error_witness : (runOp stW opW4 faultW).1 = stW :=
  ops_roll_back_on_error stW opW4 faultW .internalError
    (by
      norm_num [runOp, opW4, executeTrade, faultW, stW, ratesW]
      rw [if_neg (by decide : ¬ (Currency.USD = Currency.EUR))])

set_option maxHeartbeats 1000000 in
theorem runOp_verified_eq (st : LedgerState) (op : WalletOp) (fl : Faults) :
    (runOp st op fl).1.verified = st.verified := by
  cases op with
  | fund u a c =>
    simp only [runOp, fundWallet]
    split_ifs <;> rfl
  | transfer f t a c =>
    simp only [runOp, transferFunds]
    split_ifs <;> rfl
  | trade u fc tc a rates =>
    simp only [runOp, executeTrade]
    cases hr : rates tc with
    | none => split_ifs <;> rfl
    | some r =>
      dsimp only
      split_ifs <;> rfl

set_option maxHeartbeats 1000000 in
theorem runOp_hasWallet_eq (st : LedgerState) (op : WalletOp) (fl : Faults) :
    (runOp st op fl).1.hasWallet = st.hasWallet := by
  cases op with
  | fund u a c =>
    simp only [runOp, fundWallet]
    split_ifs <;> rfl
  | transfer f t a c =>
    simp only [runOp, transferFunds]
    split_ifs <;> rfl
  | trade u fc tc a rates =>
    simp only [runOp, executeTrade]
    cases hr : rates tc with
    | none => split_ifs <;> rfl
    | some r =>
      dsimp only
      split_ifs <;> rfl

/-- An operation that requires the full available balance a of the (A, C)
key: a transfer of a in currency C from A to some other owner, or a trade by
A of a out of C into another currency whose rate resolves to a nonzero value. -/
def fullDraw (A : String) (C : Currency) (a : ℚ) : WalletOp → Prop
  | .fund _ _ _ => False
  | .transfer f t amt cur => f = A ∧ t ≠ A ∧ amt = a ∧ cur = C
  | .trade u fc tc amt rates =>
      u = A ∧ fc = C ∧ tc ≠ C ∧ amt = a ∧ ∃ r, rates tc = some r ∧ r ≠ 0

set_option maxHeartbeats 1000000 in
/-- A full-draw operation against a balance whose available equals the drawn
amount succeeds and zeroes that available balance. -/
theorem fullDraw_first_success
    (st : LedgerState) (A : String) (C : Currency) (a : ℚ) (op : WalletOp)
    (hv : ∀ u, st.verified u = true) (hw : ∀ u, st.hasWallet u = true)
    (ha : 0 < a) (hbal : (st.balances A C).available = a)
    (hop : fullDraw A C a op) :
    (∃ txn, (runOp st op noFaults).2 = .ok txn) ∧
    ((runOp st op noFaults).1.balances A C).available = 0 := by
  cases op with
  | fund u amt c => exact absurd hop (by simp [fullDraw])
  | transfer f t amt cur =>
    obtain ⟨h1, hta, h3, h4⟩ := hop
    rw [h1, h3, h4]
    have hne : A ≠ t := fun h => hta h.symm
    have hnl : ¬ (st.balances A C).available < a := by
      rw [hbal]
      exact lt_irrefl a
    have heq : transferFunds st A t a C noFaults =
        (addTxn (setBalance (setBalance st A C (debitBal (st.balances A C) a))
          t C (creditBal (st.balances t C) a))
          ⟨A, .TRANSFER, .COMPLETED, a, C, C, 1, a⟩,
         .ok ⟨A, .TRANSFER, .COMPLETED, a, C, C, 1, a⟩) := by
      simp [transferFunds, hv A, hne, hw A, hw t, not_le.mpr ha, hnl, noFaults]
    simp only [runOp, heq]
    refine ⟨⟨_, rfl⟩, ?_⟩
    rw [addTxn_balances, setBalance_balances, if_neg fun hc => hne hc.1,
      setBalance_balances, if_pos ⟨rfl, rfl⟩, debitBal_available, hbal]
    ring
  | trade u fc tc amt rates =>
    obtain ⟨h1, h2, htc, h4, r, hr, hr0⟩ := hop
    rw [h1, h2, h4]
    have hne : C ≠ tc := fun h => htc h.symm
    have hnl : ¬ (st.balances A C).available < a := by
      rw [hbal]
      exact lt_irrefl a
    have heq : executeTrade st A C tc a rates noFaults =
        (addTxn (setBalance (setBalance st A C (debitBal (st.balances A C) a))
          A tc (creditBal (st.balances A tc) (a * r)))
          ⟨A, .TRADE, .COMPLETED, a, C, tc, r, a * r⟩,
         .ok ⟨A, .TRADE, .COMPLETED, a, C, tc, r, a * r⟩) := by
      simp [executeTrade, hr, hv A, hw A, hne, not_le.mpr ha, hr0, hnl, noFaults]
    simp only [runOp, heq]
    refine ⟨⟨_, rfl⟩, ?_⟩
    rw [addTxn_balances, setBalance_balances, if_neg fun hc => hne hc.2,
      setBalance_balances, if_pos ⟨rfl, rfl⟩, debitBal_available, hbal]
    ring

set_option maxHeartbeats 1000000 in
/-- A full-draw operation against a balance whose available is already zero
fails with InsufficientFunds and leaves the state untouched. -/
theorem fullDraw_insufficient
    (st : LedgerState) (A : String) (C : Currency) (a : ℚ) (op : WalletOp)
    (hv : ∀ u, st.verified u = true) (hw : ∀ u, st.hasWallet u = true)
    (ha : 0 < a) (hbal : (st.balances A C).available = 0)
    (hop : fullDraw A C a op) :
    runOp st op noFaults = (st, .error .insufficientFunds) := by
  cases op with
  | fund u amt c => exact absurd hop (by simp [fullDraw])
  | transfer f t amt cur =>
    obtain ⟨h1, hta, h3, h4⟩ := hop
    rw [h1, h3, h4]
    have hne : A ≠ t := fun h => hta h.symm
    have hlt : (st.balances A C).available < a := by
      rw [hbal]
      exact ha
    simp [runOp, transferFunds, hv A, hne, hw A, hw t, not_le.mpr ha, hlt]
  | trade u fc tc amt rates =>
    obtain ⟨h1, h2, htc, h4, r, hr, hr0⟩ := hop
    rw [h1, h2, h4]
    have hne : C ≠ tc := fun h => htc h.symm
    have hlt : (st.balances A C).available < a := by
      rw [hbal]
      exact ha
    simp [runOp, executeTrade, hr, hv A, hw A, hne, not_le.mpr ha, hr0, hlt]

/-- Boolean success test on an operation outcome. -/
def isOkB : Except WalletErr Txn → Bool
  | .ok _ => true
  | .error _ => false

/-- Once the contended available balance is zero, every remaining full-draw
operation fails with InsufficientFunds and the state never changes. -/
theorem fullDraw_all_insufficient
    (A : String) (C : Currency) (a : ℚ) (ops : List WalletOp)
    (ha : 0 < a) :
    ∀ st : LedgerState, (∀ u, st.verified u = true) →
      (∀ u, st.hasWallet u = true) → (st.balances A C).available = 0 →
      (∀ o ∈ ops, fullDraw A C a o) →
      runOps st ops = (st, ops.map fun _ => .error .insufficientFunds) := by
  induction ops with
  | nil => intro st _ _ _ _; rfl
  | cons o os ih =>
    intro st hv hw hbal hall
    have hstep := fullDraw_insufficient st A C a o hv hw ha hbal
      (hall o (by simp))
    simp only [runOps, hstep, List.map_cons]
    rw [ih st hv hw hbal fun x hx => hall x (by simp [hx])]

/-- C5: N concurrent transfer or trade operations, each demanding the full
available balance a of one (owner, currency) key that holds funds for exactly
one of them, serialized in any order by the per-key exclusive locks: exactly
the first succeeds and the other N-1 fail with InsufficientFunds. -/
theorem concurrent_full_draws_one_success
    (st : LedgerState) (A : String) (C : Currency) (a : ℚ)
    (op : WalletOp) (rest : List WalletOp)
    (hv : ∀ u, st.verified u = true) (hw : ∀ u, st.hasWallet u = true)
    (ha : 0 < a) (hbal : (st.balances A C).available = a)
    (hall : ∀ o ∈ op :: rest, fullDraw A C a o) :
    (∃ txn, (runOps st (op :: rest)).2 =
      .ok txn :: rest.map fun _ => .error .insufficientFunds) ∧
    (runOps st (op :: rest)).2.countP isOkB = 1 := by
  obtain ⟨⟨txn, hok⟩, hzero⟩ := fullDraw_first_success st A C a op hv hw ha hbal
    (hall op (by simp))
  have hv1 : ∀ u, (runOp st op noFaults).1.verified u = true := by
    rw [runOp_verified_eq]
    exact hv
  have hw1 : ∀ u, (runOp st op noFaults).1.hasWallet u = true := by
    rw [runOp_hasWallet_eq]
    exact hw
  have hrest := fullDraw_all_insufficient A C a rest ha
    (runOp st op noFaults).1 hv1 hw1 hzero
    (fun x hx => hall x (by simp [hx]))
  have hshape : (runOps st (op :: rest)).2 =
      .ok txn :: rest.map fun _ => .error .insufficientFunds := by
    simp only [runOps, hrest, hok]
  refine ⟨⟨txn, hshape⟩, ?_⟩
  rw [hshape]
  simp only [List.countP_cons, List.countP_map]
  rw [List.countP_eq_zero.mpr (by intro x hx; simp [Function.comp, isOkB])]
  simp [isOkB]

/-- Operations for the C5 witness: three full draws of u1's 1000 USD. -/
def opsW5rest : List WalletOp :=
  [.transfer "u1" "u3" 1000 .USD, .trade "u1" .USD .EUR 1000 ratesW]

/-- Witness for C5: of three serialized full draws against u1's 1000 USD,
exactly the first succeeds; the other two fail with InsufficientFunds. -/
theorem concurrent_full_draws_one_success_witness :
    (∃ txn, (runOps stW (.transfer "u1" "u2" 1000 .USD :: opsW5rest)).2 =
      .ok txn :: opsW5rest.map fun _ => .error .insufficientFunds) ∧
    (runOps stW (.transfer "u1" "u2" 1000 .USD :: opsW5rest)).2.countP isOkB = 1 :=
  concurrent_full_draws_one_success stW "u1" .USD 1000
    (.transfer "u1" "u2" 1000 .USD) opsW5rest
    (fun _ => rfl) (fun _ => rfl) (by norm_num) rfl
    (by
      intro o ho
      fin_cases ho
      · exact ⟨rfl, by decide, rfl, rfl⟩
      · exact ⟨rfl, by decide, rfl, rfl⟩
      · exact ⟨rfl, rfl, by decide, rfl, 17 / 20, rfl, by norm_num⟩)

/-- Kernel-computable lexicographic (byte) order on character lists, used to
state the spec's "lower owner id" and "alphabetical currency code" orders. -/
def charListLt : List Char → List Char → Bool
  | [], [] => false
  | [], _ :: _ => true
  | _ :: _, [] => false
  | c :: cs, d :: ds => if c < d then true else if d < c then false else charListLt cs ds

/-- Modelled from the spec: the canonical transfer hold order the claim
demands — the lower owner id locked first. -/
def claimedTransferLockOrder (f t : String) : List String :=
  if charListLt f.data t.data then [f, t] else [t, f]

/-- Modelled from the spec: the canonical trade balance order the claim
demands — the alphabetically first currency code touched first. -/
def claimedTradeBalanceOrder (a b : Currency) : List Currency :=
  if charListLt (currencyCode a).data (currencyCode b).data then [a, b] else [b, a]

/-- C6 counterexample: the claim demands canonical acquisition order — for a
transfer the lower owner id first, for a trade the alphabetically first
currency code first. With sender u2 and receiver u1 the code locks u2 (the
higher id) first, and a USD-to-EUR trade touches the USD row first although
EUR sorts first: the code follows caller argument order, not the canonical
order. -/
theorem lock_order_not_canonical :
    transferLockAcquisitionOrder "u2" "u1" ≠ claimedTransferLockOrder "u2" "u1" ∧
    claimedTransferLockOrder "u2" "u1" = ["u1", "u2"] ∧
    tradeBalanceAcquisitionOrder .USD .EUR ≠ claimedTradeBalanceOrder .USD .EUR ∧
    claimedTradeBalanceOrder .USD .EUR = [.EUR, .USD] := by
  refine ⟨?_, ?_, ?_, ?_⟩ <;> decide

/-- C6 amended: multi-hold operations acquire their holds in caller-supplied
argument order — a transfer locks the sender's wallet row first and then the
receiver's, and a trade touches the from-currency balance row first and then
the to-currency row — not in a canonical sorted order. -/
theorem lock_order_is_argument_order :
    (∀ f t : String, transferLockAcquisitionOrder f t = [f, t]) ∧
    (∀ a b : Currency, tradeBalanceAcquisitionOrder a b = [a, b]) :=
  ⟨fun _ _ => rfl, fun _ _ => rfl⟩

/-- C7: every accepted update of the fallback table pair (A, B) to rate R
stores the (B, A) entry as exactly 1/R (and, for distinct currencies, keeps
the (A, B) entry at R, so the two directions are exact reciprocals). -/
theorem updateRate_reciprocal (tbl : Table) (A B : Currency) (R : ℚ) (now : ℕ)
    (hvalid : isValidRate R = true) :
    updateRate tbl A B R now B A = some ⟨1 / R, now⟩ ∧
    (A ≠ B → updateRate tbl A B R now A B = some ⟨R, now⟩) := by
  have hnv : ¬ (isValidRate R = false) := by simp [hvalid]
  constructor
  · rw [updateRate, if_neg hnv]
    rw [setEntry]
    rw [if_pos ⟨rfl, rfl⟩]
  · intro hne
    rw [updateRate, if_neg hnv]
    rw [setEntry]
    rw [if_neg fun hc => hne hc.1]
    rw [setEntry]
    rw [if_pos ⟨rfl, rfl⟩]

/-- Witness for C7: updating USD to NGN at 500 stores NGN to USD at 1/500. -/
theorem updateRate_reciprocal_witness :
    updateRate (initializeFallbackRates 0) .USD .NGN 500 7 .NGN .USD =
      some ⟨1 / 500, 7⟩ ∧
    (Currency.USD ≠ Currency.NGN →
      updateRate (initializeFallbackRates 0) .USD .NGN 500 7 .USD .NGN =
        some ⟨500, 7⟩) :=
  updateRate_reciprocal (initializeFallbackRates 0) .USD .NGN 500 7 (by decide)

/-- Adapter whose getRates succeeds with an empty list. -/
def emptyAdapter : Adapter := ⟨true, .ok []⟩

/-- Adapter whose getRates succeeds with one valid USD-to-NGN rate of 500. -/
def goodAdapter : Adapter := ⟨true, .ok [⟨.USD, .NGN, 500⟩]⟩

/-- C8 counterexample: an available first adapter returning an empty list ends
the refresh cycle as a success — no error is raised, nothing is written, and a
second adapter holding a valid non-empty list is never consulted (consulting
it alone would have changed the USD-to-NGN entry from the 476.19 baseline to
500). The claim requires the cycle to take the first valid non-empty list and
to raise an error when no adapter provides one. -/
theorem fetchLatestRates_accepts_empty_list :
    fetchLatestRates [emptyAdapter, goodAdapter] (initializeFallbackRates 0) 0 =
      (initializeFallbackRates 0, true) ∧
    fetchLatestRates [emptyAdapter] (initializeFallbackRates 0) 0 =
      (initializeFallbackRates 0, true) ∧
    (fetchLatestRates [goodAdapter] (initializeFallbackRates 0) 0).1 .USD .NGN =
      some ⟨500, 0⟩ ∧
    (initializeFallbackRates 0) .USD .NGN = some ⟨47619 / 100, 0⟩ := by
  refine ⟨rfl, rfl, ?_, rfl⟩
  rfl

/-- C8 amended: the refresh cycle walks adapters in priority order, skips
unavailable ones, and commits to the first adapter whose getRates call
succeeds — even when its list is empty or contains only invalid rates —
writing only the rates that validate and never merging across adapters; it
raises an error, leaving the table unmodified, exactly when every adapter is
unavailable or throws. -/
theorem fetchLatestRates_first_non_throwing :
    (∀ (s : Adapter) (rest : List Adapter) (tbl : Table) (now : ℕ),
      s.available = false →
      fetchLatestRates (s :: rest) tbl now = fetchLatestRates rest tbl now) ∧
    (∀ (s : Adapter) (rest : List Adapter) (tbl : Table) (now : ℕ)
      (rates : List RatePointIn), s.available = true → s.ratesResult = .ok rates →
      fetchLatestRates (s :: rest) tbl now = (applyRates tbl rates now, true)) ∧
    (∀ (sources : List Adapter) (tbl : Table) (now : ℕ),
      (∀ s ∈ sources, s.available = false ∨ ∃ err, s.ratesResult = .error err) →
      fetchLatestRates sources tbl now = (tbl, false)) ∧
    (∀ (tbl : Table) (now : ℕ) (rp : RatePointIn) (rates : List RatePointIn),
      isValidRate rp.rate = false →
      applyRates tbl (rp :: rates) now = applyRates tbl rates now) := by
  refine ⟨?_, ?_, ?_, ?_⟩
  · intro s rest tbl now hs
    rw [fetchLatestRates, if_pos hs]
  · intro s rest tbl now rates hs hr
    rw [fetchLatestRates, if_neg (by simp [hs]), hr]
  · intro sources
    induction sources with
    | nil => intro tbl now _; rfl
    | cons s rest ih =>
      intro tbl now hall
      rcases hall s (by simp) with hs | ⟨err, herr⟩
      · rw [fetchLatestRates, if_pos hs]
        exact ih tbl now fun x hx => hall x (by simp [hx])
      · by_cases hs : s.available = false
        · rw [fetchLatestRates, if_pos hs]
          exact ih tbl now fun x hx => hall x (by simp [hx])
        · rw [fetchLatestRates, if_neg hs, herr]
          exact ih tbl now fun x hx => hall x (by simp [hx])
  · intro tbl now rp rates hbad
    rw [applyRates, List.foldl_cons, if_neg (by simp [hbad])]
    rfl

/-- Adapter switched off by its health probe. -/
def offAdapter : Adapter := ⟨false, .ok [⟨.USD, .NGN, 500⟩]⟩

/-- Adapter whose getRates throws. -/
def errAdapter : Adapter := ⟨true, .error ()⟩

/-- Witness for the amended C8: skipping an unavailable adapter, committing to
the first succeeding one, failing when all adapters are down or throwing, and
skipping an invalid rate inside an accepted list. -/
theorem fetchLatestRates_first_non_throwing_witness :
    fetchLatestRates [offAdapter, goodAdapter] (initializeFallbackRates 0) 0 =
      fetchLatestRates [goodAdapter] (initializeFallbackRates 0) 0 ∧
    fetchLatestRates [goodAdapter] (initializeFallbackRates 0) 0 =
      (applyRates (initializeFallbackRates 0) [⟨.USD, .NGN, 500⟩] 0, true) ∧
    fetchLatestRates [offAdapter, errAdapter] (initializeFallbackRates 0) 0 =
      (initializeFallbackRates 0, false) ∧
    applyRates (initializeFallbackRates 0) [⟨.USD, .NGN, -3⟩] 0 =
      applyRates (initializeFallbackRates 0) [] 0 :=
  ⟨fetchLatestRates_first_non_throwing.1 offAdapter [goodAdapter]
      (initializeFallbackRates 0) 0 rfl,
   fetchLatestRates_first_non_throwing.2.1 goodAdapter []
      (initializeFallbackRates 0) 0 [⟨.USD, .NGN, 500⟩] rfl rfl,
   fetchLatestRates_first_non_throwing.2.2.1 [offAdapter, errAdapter]
      (initializeFallbackRates 0) 0
      (by
        intro s hs
        fin_cases hs
        · exact .inl rfl
        · exact .inr ⟨(), rfl⟩),
   fetchLatestRates_first_non_throwing.2.2.2 (initializeFallbackRates 0) 0
      ⟨.USD, .NGN, -3⟩ [] (by decide)⟩

/-- C9: under RETRY_CONFIG an operation failing on attempts 1 and 2 and
succeeding on attempt 3 returns the success, after waits of exactly 1000 ms
and then 2000 ms (the first and second backoff delays, summing to 3000 ms,
within [1000, 3000]); and any operation is attempted at most 3 times, its
waits always a prefix of the 1 s, factor-2, 5 s-capped backoff sequence. -/
theorem retry_spec (E A : Type) (fn : ℕ → Except E A) (e1 e2 : E) (a : A)
    (h1 : fn 1 = .error e1) (h2 : fn 2 = .error e2) (h3 : fn 3 = .ok a) :
    retry E A fn RETRY_CONFIG = (.ok a, [1000, 2000]) ∧
    (retry E A fn RETRY_CONFIG).2.sum = 3000 ∧
    1000 ≤ (retry E A fn RETRY_CONFIG).2.sum ∧
    (retry E A fn RETRY_CONFIG).2.sum ≤ 1000 + 2000 ∧
    ∀ g : ℕ → Except E A,
      (retry E A g RETRY_CONFIG).2 = [] ∨
      (retry E A g RETRY_CONFIG).2 = [1000] ∨
      (retry E A g RETRY_CONFIG).2 = [1000, 2000] := by
  have hmain : retry E A fn RETRY_CONFIG = (.ok a, [1000, 2000]) := by
    norm_num [retry, retryRun, RETRY_CONFIG, h1, h2, h3]
  refine ⟨hmain, by rw [hmain]; norm_num, by rw [hmain]; norm_num,
    by rw [hmain]; norm_num, ?_⟩
  intro g
  cases hg1 : g 1 with
  | ok b => exact .inl (by norm_num [retry, retryRun, RETRY_CONFIG, hg1])
  | error f1 =>
    cases hg2 : g 2 with
    | ok b =>
      exact .inr (.inl (by norm_num [retry, retryRun, RETRY_CONFIG, hg1, hg2]))
    | error f2 =>
      cases hg3 : g 3 with
      | ok b =>
        exact .inr (.inr (by norm_num [retry, retryRun, RETRY_CONFIG, hg1, hg2, hg3]))
      | error f3 =>
        exact .inr (.inr (by norm_num [retry, retryRun, RETRY_CONFIG, hg1, hg2, hg3]))

/-- Concrete operation for the C9 witness: fails twice, succeeds third. -/
def fnW : ℕ → Except String ℕ := fun n => if n ≥ 3 then .ok 42 else .error "down"

/-- Witness for C9 at the concrete twice-failing operation. -/
theorem retry_spec_witness :
    retry String ℕ fnW RETRY_CONFIG = (.ok 42, [1000, 2000]) ∧
    (retry String ℕ fnW RETRY_CONFIG).2.sum = 3000 ∧
    1000 ≤ (retry String ℕ fnW RETRY_CONFIG).2.sum ∧
    (retry String ℕ fnW RETRY_CONFIG).2.sum ≤ 1000 + 2000 ∧
    ∀ g : ℕ → Except String ℕ,
      (retry String ℕ g RETRY_CONFIG).2 = [] ∨
      (retry String ℕ g RETRY_CONFIG).2 = [1000] ∨
      (retry String ℕ g RETRY_CONFIG).2 = [1000, 2000] :=
  retry_spec String ℕ fnW "down" "down" 42 rfl rfl rfl

/-- C10: getRate is total — a pair present in the table yields its stored
rate, a pair absent from the table yields the hardcoded baseline constant,
and a pair absent from both (in particular any same-currency pair, which the
baseline never contains) silently yields 1. -/
theorem getRate_total_spec (tbl : Table) (f t : Currency) :
    (∀ e, tbl f t = some e → getRate tbl f t = e.rate) ∧
    (tbl f t = none → ∀ r, BASE_FALLBACK_RATES f t = some r →
      getRate tbl f t = r) ∧
    (tbl f t = none → BASE_FALLBACK_RATES f t = none → getRate tbl f t = 1) ∧
    (∀ c : Currency, BASE_FALLBACK_RATES c c = none) ∧
    (∀ (now : ℕ) (c : Currency), getRate (initializeFallbackRates now) c c = 1) := by
  refine ⟨?_, ?_, ?_, ?_, ?_⟩
  · intro e he
    rw [getRate, he]
  · intro hn r hr
    rw [getRate, hn, hr]
  · intro hn hb
    rw [getRate, hn, hb]
  · intro c
    cases c <;> rfl
  · intro now c
    cases c <;> rfl

/-- Witness for C10: the seeded table gives the 0.92 baseline for USD to EUR
and silently returns 1 for the same-currency pair USD to USD. -/
theorem getRate_total_spec_witness :
    getRate (initializeFallbackRates 0) .USD .EUR = 92 / 100 ∧
    getRate (initializeFallbackRates 0) .USD .USD = 1 :=
  ⟨(getRate_total_spec (initializeFallbackRates 0) .USD .EUR).1 ⟨92 / 100, 0⟩ rfl,
   (getRate_total_spec (initializeFallbackRates 0) .USD .USD).2.2.2.2 0 .USD⟩

end CredpalFx
